import Mathlib

/-!
Shallow embedding of the beat-camera-sync audio analysis and chart generation
pipeline (`analyzeAudioAndGenerateChart`), together with proofs of the spec's
testable properties.  Audio samples are modelled as real numbers, the decoded
buffer as a `List ℝ` plus a sample rate, and the asynchronous fetch/decode step
as an `Except` value (failure carries the logged diagnostic message).
-/

namespace BeatChart

/-- Hand assignment of a note ("left"/"right" in the source). -/
inductive HandType where
  | left
  | right
deriving DecidableEq, Repr

/-- Cut direction enumeration of a note. -/
inductive CutDirection where
  | UP
  | DOWN
  | LEFT
  | RIGHT
  | ANY
deriving DecidableEq, Repr

/-- A generated note.  The shape follows the object literal pushed by the
generator.  Modelled from the spec: the repository's `types.ts` (declaring
`NoteData`) is not among the provided sources; per §3 of the spec the
`hit`/`missed` flags start `false` at creation and are owned by the
downstream collision system, so they are fields defaulting to `false`. -/
structure NoteData where
  id : String
  time : ℝ
  lineIndex : ℕ
  lineLayer : ℕ
  type : HandType
  cutDirection : CutDirection
  hit : Bool := false
  missed : Bool := false

/-- Source constant `MIN_NOTE_GAP = 0.12`. -/
def MIN_NOTE_GAP : ℝ := 0.12

/-- Source constant `windowSize = 2048`. -/
def windowSize : ℕ := 2048

/-- Source constant `hopSize = 512`. -/
def hopSize : ℕ := 512

/-- Source constant `historySize = 50`. -/
def historySize : ℕ := 50

noncomputable section

/-- Frame extraction: `data.slice(i, i + windowSize)`. -/
def frameAt (data : List ℝ) (i : ℕ) : List ℝ :=
  (data.drop i).take windowSize

/-- Root-mean-square loudness: `Math.sqrt(frame.reduce((s, v) => s + v * v, 0) / frame.length)`. -/
def rmsOf (frame : List ℝ) : ℝ :=
  Real.sqrt (frame.foldl (fun s v => s + v * v) 0 / frame.length)

/-- The low-frequency profile loop: `spectrum[j] = Math.abs(frame[j * 4] || 0)`
for `j = 0 .. 39`, building the 40-entry list by successive writes. -/
def spectrumOf (frame : List ℝ) : List ℝ :=
  (List.range 40).foldl (fun acc j => acc ++ [|frame.getD (j * 4) 0|]) []

/-- The spectral-flux loop: starting from `flux = 0`, for each `j` add
`spectrum[j] - prevSpectrum[j]` when that difference is positive; when no
previous profile exists (`prevSpectrum === null`) the flux stays `0`. -/
def fluxOf (spectrum : List ℝ) (prev : Option (List ℝ)) : ℝ :=
  match prev with
  | none => 0
  | some p =>
      (List.range spectrum.length).foldl
        (fun flux j =>
          let diff := spectrum.getD j 0 - p.getD j 0
          if diff > 0 then flux + diff else flux) 0

/-- Rolling history update: `push(x)` followed by `shift()` once the capacity 50 is exceeded. -/
def pushHist (h : List ℝ) (x : ℝ) : List ℝ :=
  let h' := h ++ [x]
  if historySize < h'.length then h'.tail else h'

/-- Running mean: `list.reduce((a, b) => a + b, 0) / list.length`. -/
def meanOf (l : List ℝ) : ℝ :=
  l.foldl (fun a b => a + b) 0 / l.length

/-- The mutable state threaded through the analysis loop. -/
structure ChartState where
  energyHistory : List ℝ
  fluxHistory : List ℝ
  lastNoteTime : ℝ
  lastHand : HandType
  id : ℕ
  notes : List NoteData
  prevSpectrum : Option (List ℝ)

/-- Initial loop state: empty histories, `lastNoteTime = 0`,
`lastHand = "right"`, `id = 0`, no notes, no previous profile. -/
def initState : ChartState :=
  { energyHistory := []
    fluxHistory := []
    lastNoteTime := 0
    lastHand := HandType.right
    id := 0
    notes := []
    prevSpectrum := none }

/-- The note-construction block (source lines 82-119): classify the accepted
beat as stream or isolated, choose hand, direction, lane and layer, and build
the pushed object literal. -/
def makeNote (lastHand : HandType) (lastNoteTime time intensity : ℝ) (id : ℕ) :
    NoteData :=
  if time - lastNoteTime < 0.22 then
    -- stream branch
    let type := if lastHand = HandType.left then HandType.right else HandType.left
    { id := "note-" ++ toString id
      time := time
      lineIndex := if type = HandType.left then 1 else 2
      lineLayer := 0
      type := type
      cutDirection := CutDirection.DOWN }
  else
    let type0 := if intensity > 1.4 then HandType.right else HandType.left
    let type :=
      if type0 = lastHand then
        (if type0 = HandType.left then HandType.right else HandType.left)
      else type0
    if intensity > 2.0 then
      { id := "note-" ++ toString id
        time := time
        lineIndex := if type = HandType.left then 1 else 2
        lineLayer := 0
        type := type
        cutDirection := CutDirection.DOWN }
    else if intensity > 1.3 then
      { id := "note-" ++ toString id
        time := time
        lineIndex := if type = HandType.left then 1 else 2
        lineLayer := 0
        type := type
        cutDirection := CutDirection.UP }
    else
      { id := "note-" ++ toString id
        time := time
        lineIndex := if type = HandType.left then 0 else 3
        lineLayer := 1
        type := type
        cutDirection := CutDirection.ANY }

/-- One iteration of the analysis loop body at sample index `i`: frame
measurements, history update, hard gates, adaptive beat decision, and (on
acceptance) note emission. -/
def stepFrame (data : List ℝ) (sampleRate : ℝ) (i : ℕ) (st : ChartState) :
    ChartState :=
  let frame := frameAt data i
  let rms := rmsOf frame
  let spectrum := spectrumOf frame
  let flux := fluxOf spectrum st.prevSpectrum
  let energyHistory := pushHist st.energyHistory rms
  let fluxHistory := pushHist st.fluxHistory flux
  let avgEnergy := meanOf energyHistory
  let avgFlux := meanOf fluxHistory
  let time := (i : ℝ) / sampleRate
  let st1 : ChartState :=
    { st with
        energyHistory := energyHistory
        fluxHistory := fluxHistory
        prevSpectrum := some spectrum }
  if rms < 0.06 then st1
  else if flux < rms * 0.6 then st1
  else if rms > avgEnergy * 1.15 ∧ flux > avgFlux * 2.2 ∧
      time - st.lastNoteTime > MIN_NOTE_GAP then
    let intensity := rms / avgEnergy
    let note := makeNote st.lastHand st.lastNoteTime time intensity st.id
    { st1 with
        notes := st1.notes ++ [note]
        lastNoteTime := time
        lastHand := note.type
        id := st.id + 1 }
  else st1

/-- The analysis loop: `for (let i = 0; i < data.length - windowSize; i += hopSize)`. -/
def chartLoop (data : List ℝ) (sampleRate : ℝ) (i : ℕ) (st : ChartState) :
    ChartState :=
  if _h : i + windowSize < data.length then
    chartLoop data sampleRate (i + hopSize) (stepFrame data sampleRate i st)
  else st
termination_by data.length - i
decreasing_by
  simp only [windowSize, hopSize] at *
  omega

/-- The analysis pass on a successfully decoded buffer, ending with the
lead-in filter `notes.filter((n) => n.time > 1.8)`. -/
def analyzeChartFromData (data : List ℝ) (sampleRate : ℝ) : List NoteData :=
  ((chartLoop data sampleRate 0 initState).notes).filter
    (fun n => decide (n.time > 1.8))

/-- The whole pipeline.  The awaited fetch/decode of the audio resource is
modelled by the `Except` argument: `Except.error` is any failure caught by the
surrounding try/catch (the caught exception is logged and an empty chart is
returned), `Except.ok` carries channel-0 samples and the sample rate. -/
def analyzeAudioAndGenerateChart (decoded : Except String (List ℝ × ℝ)) :
    List NoteData :=
  match decoded with
  | Except.ok (data, sampleRate) => analyzeChartFromData data sampleRate
  | Except.error _ => []

/-- The hand opposite to a given hand. -/
def opposite : HandType → HandType
  | HandType.left => HandType.right
  | HandType.right => HandType.left

/-- Modelled from the spec: the classification table of §4.3 for an accepted
beat, as `(hand, direction, laneIndex, layer)`.  Stream beats (gap below
0.22 s) force `opposite(lastHand)` with a DOWN cut on the inner lane; isolated
beats pick a hand from the intensity, flip it when it equals `lastHand`, and
place by intensity tier. -/
def specClassify (lastHand : HandType) (lastNoteTime time intensity : ℝ) :
    HandType × CutDirection × ℕ × ℕ :=
  if time - lastNoteTime < 0.22 then
    let hand := opposite lastHand
    (hand, CutDirection.DOWN, if hand = HandType.left then 1 else 2, 0)
  else
    let hand0 := if intensity > 1.4 then HandType.right else HandType.left
    let hand := if hand0 = lastHand then opposite hand0 else hand0
    if intensity > 2.0 then
      (hand, CutDirection.DOWN, if hand = HandType.left then 1 else 2, 0)
    else if intensity > 1.3 then
      (hand, CutDirection.UP, if hand = HandType.left then 1 else 2, 0)
    else
      (hand, CutDirection.ANY, if hand = HandType.left then 0 else 3, 1)

/-- The adaptive acceptance condition of one frame, phrased over the frame
measurements: both hard gates pass, both adaptive thresholds are exceeded
(against the means of the histories with the current values already pushed),
and the minimum inter-beat gap holds. -/
def beatAccepted (st : ChartState) (rms flux time : ℝ) : Prop :=
  ¬ rms < 0.06 ∧ ¬ flux < rms * 0.6 ∧
  rms > meanOf (pushHist st.energyHistory rms) * 1.15 ∧
  flux > meanOf (pushHist st.fluxHistory flux) * 2.2 ∧
  time - st.lastNoteTime > MIN_NOTE_GAP

/-- Loop invariant: notes are separated by more than the minimum gap, all note
times are bounded by `lastNoteTime`, hands alternate, the last note's hand is
`lastHand`, `hit`/`missed` are untouched, and the rms history holds only
nonnegative values. -/
def Inv (st : ChartState) : Prop :=
  st.notes.Pairwise (fun a b => a.time + MIN_NOTE_GAP < b.time) ∧
  (∀ n ∈ st.notes, n.time ≤ st.lastNoteTime) ∧
  List.Chain' (fun a b => a.type ≠ b.type) st.notes ∧
  (∀ n, st.notes.getLast? = some n → n.type = st.lastHand) ∧
  (∀ n ∈ st.notes, n.hit = false ∧ n.missed = false) ∧
  (∀ x ∈ st.energyHistory, 0 ≤ x)

end

theorem gap_pos : (0 : ℝ) < MIN_NOTE_GAP := by norm_num [MIN_NOTE_GAP]

theorem opposite_eq (h : HandType) :
    opposite h = if h = HandType.left then HandType.right else HandType.left := by
  cases h <;> rfl

theorem makeNote_time (h : HandType) (t0 t int : ℝ) (id : ℕ) :
    (makeNote h t0 t int id).time = t := by
  unfold makeNote
  split_ifs <;> rfl

theorem makeNote_hit (h : HandType) (t0 t int : ℝ) (id : ℕ) :
    (makeNote h t0 t int id).hit = false := by
  unfold makeNote
  split_ifs <;> rfl

theorem makeNote_missed (h : HandType) (t0 t int : ℝ) (id : ℕ) :
    (makeNote h t0 t int id).missed = false := by
  unfold makeNote
  split_ifs <;> rfl

theorem makeNote_type_ne (h : HandType) (t0 t int : ℝ) (id : ℕ) :
    (makeNote h t0 t int id).type ≠ h := by
  unfold makeNote
  cases h <;> split_ifs <;> simp_all

theorem mem_pushHist {h : List ℝ} {x y : ℝ} (hy : y ∈ pushHist h x) :
    y ∈ h ∨ y = x := by
  unfold pushHist at hy
  simp only [] at hy
  have hy' : y ∈ h ++ [x] := by
    split_ifs at hy
    · exact (List.tail_sublist _).subset hy
    · exact hy
  rcases List.mem_append.mp hy' with h1 | h1
  · exact Or.inl h1
  · exact Or.inr (List.mem_singleton.mp h1)

theorem pushHist_nonneg {h : List ℝ} (hh : ∀ x ∈ h, 0 ≤ x) {v : ℝ}
    (hv : 0 ≤ v) : ∀ x ∈ pushHist h v, 0 ≤ x := by
  intro x hx
  rcases mem_pushHist hx with h1 | h1
  · exact hh x h1
  · exact h1 ▸ hv

theorem self_mem_pushHist (h : List ℝ) (x : ℝ) : x ∈ pushHist h x := by
  unfold pushHist
  simp only []
  split_ifs with hlen
  · cases h with
    | nil => simp [historySize] at hlen
    | cons a as => simp
  · simp

theorem initState_inv : Inv initState := by
  refine ⟨?_, ?_, ?_, ?_, ?_, ?_⟩ <;> simp [initState]

theorem inv_stepFrame (data : List ℝ) (sr : ℝ) (i : ℕ) {st : ChartState}
    (h : Inv st) : Inv (stepFrame data sr i st) := by
  obtain ⟨h1, h2, h3, h4, h5, h6⟩ := h
  have hrms : (0 : ℝ) ≤ rmsOf (frameAt data i) := Real.sqrt_nonneg _
  simp only [stepFrame]
  split_ifs with g1 g2 g3
  · exact ⟨h1, h2, h3, h4, h5, pushHist_nonneg h6 hrms⟩
  · exact ⟨h1, h2, h3, h4, h5, pushHist_nonneg h6 hrms⟩
  · obtain ⟨ga, gb, gc⟩ := g3
    have hgap := gap_pos
    refine ⟨?_, ?_, ?_, ?_, ?_, ?_⟩
    · refine List.pairwise_append.mpr ⟨h1, List.pairwise_singleton _ _, ?_⟩
      intro a ha b hb
      rw [List.mem_singleton] at hb
      subst hb
      rw [makeNote_time]
      have := h2 a ha
      linarith
    · intro n hn
      rcases List.mem_append.mp hn with hn | hn
      · have := h2 n hn
        linarith
      · rw [List.mem_singleton] at hn
        subst hn
        simp [makeNote_time]
    · refine List.chain'_append.mpr ⟨h3, List.chain'_singleton _, ?_⟩
      intro x hx y hy
      simp only [List.head?_cons, Option.mem_def, Option.some.injEq] at hy
      subst hy
      have hx' := h4 x (Option.mem_def.mp hx)
      rw [hx']
      exact (makeNote_type_ne _ _ _ _ _).symm
    · intro n hn
      simp only [List.getLast?_concat, Option.some.injEq] at hn
      subst hn
      rfl
    · intro n hn
      rcases List.mem_append.mp hn with hn | hn
      · exact h5 n hn
      · rw [List.mem_singleton] at hn
        subst hn
        exact ⟨makeNote_hit _ _ _ _ _, makeNote_missed _ _ _ _ _⟩
    · exact pushHist_nonneg h6 hrms
  · exact ⟨h1, h2, h3, h4, h5, pushHist_nonneg h6 hrms⟩

theorem chartLoop_inv (data : List ℝ) (sr : ℝ) (i : ℕ) (st : ChartState)
    (h : Inv st) : Inv (chartLoop data sr i st) := by
  rw [chartLoop]
  split_ifs with hc
  · exact chartLoop_inv data sr (i + hopSize) _ (inv_stepFrame data sr i h)
  · exact h
termination_by data.length - i
decreasing_by
  simp only [windowSize, hopSize] at *
  omega

theorem foldl_add_eq_sum (l : List ℝ) (a : ℝ) :
    l.foldl (fun s v => s + v) a = a + l.sum := by
  induction l generalizing a with
  | nil => simp
  | cons x xs ih => simp [ih, add_assoc]

theorem foldl_add_map {α : Type} (g : α → ℝ) (l : List α) (a : ℝ) :
    l.foldl (fun s v => s + g v) a = a + (l.map g).sum := by
  induction l generalizing a with
  | nil => simp
  | cons x xs ih => simp [ih, add_assoc]

theorem foldl_append_eq_map {α β : Type} (f : α → β) (l : List α)
    (acc : List β) :
    l.foldl (fun acc j => acc ++ [f j]) acc = acc ++ l.map f := by
  induction l generalizing acc with
  | nil => simp
  | cons x xs ih => simp [ih]

theorem filter_suffix_of_increasing (l : List NoteData)
    (hl : l.Pairwise fun a b => a.time < b.time) :
    l.filter (fun n => decide (n.time > 1.8)) <:+ l := by
  induction l with
  | nil => simp
  | cons x xs ih =>
    obtain ⟨hx, hxs⟩ := List.pairwise_cons.mp hl
    by_cases h18 : x.time > 1.8
    · have hall : (x :: xs).filter (fun n => decide (n.time > 1.8)) = x :: xs := by
        rw [List.filter_eq_self]
        intro a ha
        rcases List.mem_cons.mp ha with rfl | ha'
        · simpa using h18
        · simp only [decide_eq_true_eq]
          exact lt_trans h18 (hx a ha')
      rw [hall]
    · have hdrop : (x :: xs).filter (fun n => decide (n.time > 1.8)) =
          xs.filter (fun n => decide (n.time > 1.8)) := by
        simp [List.filter_cons, h18]
      rw [hdrop]
      exact (ih hxs).trans (List.suffix_cons x xs)

theorem chart_pairwise_gap (data : List ℝ) (sr : ℝ) :
    (analyzeChartFromData data sr).Pairwise
      (fun a b => a.time + MIN_NOTE_GAP < b.time) := by
  unfold analyzeChartFromData
  exact ((chartLoop_inv data sr 0 initState initState_inv).1).filter _

/-- C1: in every successfully generated chart the note times are sorted:
consecutive notes satisfy `notes[i].time ≤ notes[i+1].time` (in fact they are
strictly increasing, since acceptance forces each new time past
`lastNoteTime + MIN_NOTE_GAP` and the post-pass time filter preserves order). -/
theorem c1_chart_times_sorted (data : List ℝ) (sr : ℝ) :
    (analyzeAudioAndGenerateChart (Except.ok (data, sr))).Pairwise
      (fun a b => a.time ≤ b.time) := by
  have h := chart_pairwise_gap data sr
  have hg := gap_pos
  exact h.imp (fun hab => by linarith)

/-- C2: every note in the final chart has `time > 1.8`; the lead-in filter is
the single post-pass `filter` over the complete note list. -/
theorem c2_leadin_guard (data : List ℝ) (sr : ℝ) :
    (analyzeAudioAndGenerateChart (Except.ok (data, sr))).Forall
      (fun n => n.time > 1.8) := by
  rw [List.forall_iff_forall_mem]
  intro n hn
  simp only [analyzeAudioAndGenerateChart, analyzeChartFromData] at hn
  have := (List.mem_filter.mp hn).2
  simpa using this

/-- C3: any two consecutive notes of a generated chart are at least
`0.12` seconds apart (acceptance requires `time - lastNoteTime > 0.12`, so
every consecutive pair — stream-classified or not — exceeds the minimum gap,
and this survives the lead-in filter). -/
theorem c3_min_gap (data : List ℝ) (sr : ℝ) :
    List.Chain' (fun a b => 0.12 ≤ b.time - a.time)
      (analyzeAudioAndGenerateChart (Except.ok (data, sr))) := by
  have h := (chart_pairwise_gap data sr).chain'
  refine h.imp ?_
  intro a b hab
  simp only [MIN_NOTE_GAP] at hab
  linarith

/-- C4: every note of the final chart still has `hit = false` and
`missed = false`: the generator creates them false and the pipeline never
writes either field after emission. -/
theorem c4_hit_missed_false (data : List ℝ) (sr : ℝ) :
    (analyzeAudioAndGenerateChart (Except.ok (data, sr))).Forall
      (fun n => n.hit = false ∧ n.missed = false) := by
  rw [List.forall_iff_forall_mem]
  intro n hn
  simp only [analyzeAudioAndGenerateChart, analyzeChartFromData] at hn
  exact (chartLoop_inv data sr 0 initState initState_inv).2.2.2.2.1 n
    (List.mem_filter.mp hn).1

/-- C5: when the fetch/decode step fails for any reason, the pipeline returns
the empty chart — the caller always receives a chart value and no partial
chart built from a partial buffer. -/
theorem c5_failure_empty_chart (msg : String) :
    analyzeAudioAndGenerateChart (Except.error msg) = [] := rfl

/-- C9: consecutive notes of a generated chart never share a hand (the
isolated branch flips a hand equal to `lastHand` and the stream branch always
takes the opposite hand, so in particular any two consecutive isolated notes
alternate; the lead-in filter removes only a prefix of the strictly
time-increasing list, preserving adjacency). -/
theorem c9_hand_alternation (data : List ℝ) (sr : ℝ) :
    List.Chain' (fun a b => a.type ≠ b.type)
      (analyzeAudioAndGenerateChart (Except.ok (data, sr))) := by
  have hinv := chartLoop_inv data sr 0 initState initState_inv
  have hlt : (chartLoop data sr 0 initState).notes.Pairwise
      (fun a b => a.time < b.time) := by
    refine hinv.1.imp (fun hab => ?_)
    have := gap_pos
    linarith
  have hs := filter_suffix_of_increasing _ hlt
  exact hinv.2.2.1.suffix hs

/-- C10: a decoded buffer whose channel-0 sample count is at most the window
size produces the empty chart: the loop guard `i < data.length - windowSize`
fails already at `i = 0`, so no window is analysed regardless of content. -/
theorem c10_short_buffer_empty (data : List ℝ) (sr : ℝ)
    (h : data.length ≤ windowSize) :
    analyzeAudioAndGenerateChart (Except.ok (data, sr)) = [] := by
  have hloop : chartLoop data sr 0 initState = initState := by
    rw [chartLoop]
    rw [dif_neg (by omega)]
  show analyzeChartFromData data sr = []
  unfold analyzeChartFromData
  rw [hloop]
  rfl

theorem c10_witness :
    ([] : List ℝ).length ≤ windowSize ∧
    analyzeAudioAndGenerateChart (Except.ok (([] : List ℝ), 1)) = [] := by
  have h : ([] : List ℝ).length ≤ windowSize := by simp [windowSize]
  exact ⟨h, c10_short_buffer_empty [] 1 h⟩

/-- A frame emits a note exactly when the acceptance condition of the
detector holds for its measurements: `stepFrame` changes the note list iff
`beatAccepted` holds at the frame's rms, flux and time. -/
theorem stepFrame_emits_iff (data : List ℝ) (sr : ℝ) (i : ℕ)
    (st : ChartState) :
    (stepFrame data sr i st).notes ≠ st.notes ↔
      beatAccepted st (rmsOf (frameAt data i))
        (fluxOf (spectrumOf (frameAt data i)) st.prevSpectrum)
        ((i : ℝ) / sr) := by
  simp only [stepFrame, beatAccepted]
  split_ifs with g1 g2 g3
  · simp [g1]
  · simp [g2]
  · obtain ⟨ga, gb, gc⟩ := g3
    simp [g1, g2, ga, gb, gc]
  · constructor
    · intro hne
      exact absurd rfl hne
    · intro hacc
      exact absurd ⟨hacc.2.2.1, hacc.2.2.2.1, hacc.2.2.2.2⟩ g3

/-- C6: division by zero for `intensity = rms / avgEnergy` is unreachable on
the accepted-beat path: whenever the acceptance condition holds (in
particular the rms hard gate at 0.06 has passed) and the rms history holds
only nonnegative values, the mean of the energy history with the current rms
pushed — the divisor of `intensity` — is strictly positive. -/
theorem c6_accepted_avg_energy_pos (st : ChartState) (rms flux time : ℝ)
    (hhist : ∀ x ∈ st.energyHistory, 0 ≤ x)
    (hacc : beatAccepted st rms flux time) :
    0 < meanOf (pushHist st.energyHistory rms) := by
  have hrms : (0.06 : ℝ) ≤ rms := not_lt.mp hacc.1
  have hmem := self_mem_pushHist st.energyHistory rms
  have hnn : ∀ x ∈ pushHist st.energyHistory rms, 0 ≤ x :=
    pushHist_nonneg hhist (by linarith)
  obtain ⟨s, t, hst⟩ := List.append_of_mem hmem
  have hlen : 0 < (pushHist st.energyHistory rms).length :=
    List.length_pos.mpr (List.ne_nil_of_mem hmem)
  have hs : 0 ≤ s.sum :=
    List.sum_nonneg (fun x hx => hnn x (hst ▸ List.mem_append_left _ hx))
  have ht : 0 ≤ t.sum :=
    List.sum_nonneg (fun x hx =>
      hnn x (hst ▸ List.mem_append_right _ (List.mem_cons_of_mem _ hx)))
  unfold meanOf
  apply div_pos
  · rw [foldl_add_eq_sum, hst, List.sum_append, List.sum_cons]
    linarith
  · exact_mod_cast hlen

/-- Concrete detector state used to witness the acceptance hypothesis of the
intensity-divisor theorem. -/
def witnessState : ChartState :=
  { energyHistory := [(0 : ℝ)]
    fluxHistory := [0, 0, 0]
    lastNoteTime := 0
    lastHand := HandType.right
    id := 0
    notes := []
    prevSpectrum := none }

theorem c6_witness :
    (∀ x ∈ witnessState.energyHistory, (0 : ℝ) ≤ x) ∧
    beatAccepted witnessState 1 1 1 ∧
    0 < meanOf (pushHist witnessState.energyHistory 1) := by
  have h1 : ∀ x ∈ witnessState.energyHistory, (0 : ℝ) ≤ x := by
    intro x hx
    simp only [witnessState, List.mem_singleton] at hx
    simp [hx]
  have h2 : beatAccepted witnessState 1 1 1 := by
    unfold beatAccepted witnessState pushHist meanOf
    norm_num [historySize, MIN_NOTE_GAP]
  exact ⟨h1, h2, c6_accepted_avg_energy_pos witnessState 1 1 1 h1 h2⟩

/-- C7: the per-frame analysis computes exactly the spec's formulas:
rms is the square root of the mean squared sample, the coarse profile is the
stride-4 subsampled magnitude over 40 bins, the flux is the half-wave
rectified profile difference, and the flux of the first frame (no previous
profile) is zero. -/
theorem c7_frame_analyzer_formulas :
    (∀ frame : List ℝ,
        rmsOf frame =
          Real.sqrt ((frame.map fun v => v * v).sum / frame.length)) ∧
    (∀ frame : List ℝ,
        spectrumOf frame = (List.range 40).map fun j => |frame.getD (j * 4) 0|) ∧
    (∀ s p : List ℝ,
        fluxOf s (some p) =
          ((List.range s.length).map fun j =>
            max 0 (s.getD j 0 - p.getD j 0)).sum) ∧
    (∀ s : List ℝ, fluxOf s none = 0) := by
  refine ⟨?_, ?_, ?_, fun s => rfl⟩
  · intro frame
    unfold rmsOf
    rw [show (fun (s : ℝ) (v : ℝ) => s + v * v) =
        (fun (s : ℝ) (v : ℝ) => s + (fun v => v * v) v) from rfl,
      foldl_add_map, zero_add]
  · intro frame
    unfold spectrumOf
    rw [foldl_append_eq_map, List.nil_append]
  · intro s p
    simp only [fluxOf]
    have hfun : (fun (flux : ℝ) (j : ℕ) =>
        let diff := s.getD j 0 - p.getD j 0
        if diff > 0 then flux + diff else flux) =
        fun (flux : ℝ) (j : ℕ) =>
          flux + (fun j => max 0 (s.getD j 0 - p.getD j 0)) j := by
      funext flux j
      simp only []
      split_ifs with hd
      · rw [max_eq_right (le_of_lt hd)]
      · rw [max_eq_left (not_lt.mp hd), add_zero]
    rw [hfun, foldl_add_map, zero_add]

/-- C8: the note emitted for an accepted beat follows the classification
table exactly: a stream beat (gap below 0.22 s) takes the hand opposite the
last one, a DOWN cut, inner lane 1/2 and layer 0; an isolated beat picks
right iff intensity exceeds 1.4, flips on a clash with the last hand, then
places DOWN on lane 1/2 layer 0 above intensity 2.0, UP on lane 1/2 layer 0
between 1.3 and 2.0, and ANY on outer lane 0/3 layer 1 otherwise. -/
theorem c8_classification_table (lastHand : HandType)
    (lastNoteTime time intensity : ℝ) (id : ℕ) :
    ((makeNote lastHand lastNoteTime time intensity id).type,
      (makeNote lastHand lastNoteTime time intensity id).cutDirection,
      (makeNote lastHand lastNoteTime time intensity id).lineIndex,
      (makeNote lastHand lastNoteTime time intensity id).lineLayer) =
      specClassify lastHand lastNoteTime time intensity := by
  unfold makeNote specClassify
  simp only [opposite_eq]
  split_ifs <;> rfl

end BeatChart
